import Mathlib

/-!
Verification of the bounded-concurrency first-match search
(`tryhackme-hammer.py`) and the interface-toggling script
(`network_scripts/mac_changer.py`).

The Python sources are shallowly embedded:

* pure string/dict computations become Lean functions on `String` and
  association lists;
* the randomized per-request IP and the network are external inputs
  (`randomIp : String`, `net : HttpRequest → Option String`, where `none`
  models a transport-level `requests.RequestException`);
* the `ThreadPoolExecutor(max_workers=W)` together with the
  `as_completed` driver loop becomes a small-step transition system on an
  executor state (FIFO queue of submitted tasks, set of running tasks,
  completion order), driven by an arbitrary schedule (a list of steps);
* mutation of module-level state is made explicit by state passing:
  `send_recovery_request` receives the global header dict and returns the
  value it leaves behind.
-/

namespace Hammer

/-! ### Fixed configuration (module-level constants of the script) -/

def TARGET_IP : String := "IP_ADRESINIZ"

def TARGET_PORT : String := "1337"

def SESSION_COOKIE : String := "PHP_COOKIENIZ"

def RESET_PASSWORD_URL : String :=
  "http://" ++ TARGET_IP ++ ":" ++ TARGET_PORT ++ "/reset_password.php"

/-- The module-level `REQUEST_HEADERS` dict, as an association list in
insertion order (Python dicts preserve insertion order). -/
def REQUEST_HEADERS : List (String × String) :=
  [("Host", TARGET_IP ++ ":" ++ TARGET_PORT),
   ("User-Agent", "Mozilla/5.0 (X11; Ubuntu; Linux x86_64; rv:129.0) Gecko/20100101 Firefox/129.0"),
   ("Accept", "text/html,application/xhtml+xml,application/xml;q=0.9,image/avif,image/webp,image/png,image/svg+xml,*/*;q=0.8"),
   ("Accept-Language", "en-US,en;q=0.5"),
   ("Accept-Encoding", "gzip, deflate, br"),
   ("Content-Type", "application/x-www-form-urlencoded"),
   ("Origin", "http://" ++ TARGET_IP ++ ":" ++ TARGET_PORT),
   ("DNT", "1"),
   ("Connection", "keep-alive"),
   ("Referer", "http://" ++ TARGET_IP ++ ":" ++ TARGET_PORT ++ "/reset_password.php"),
   ("Upgrade-Insecure-Requests", "1"),
   ("Priority", "u=0, i"),
   ("Cookie", "PHPSESSID=" ++ SESSION_COOKIE)]

/-! ### `generate_recovery_codes` -/

/-- Python `f"{code:04d}"`: the decimal representation, left-padded with
zeros to a minimum width of 4. -/
def pad4 (n : Nat) : String :=
  let s := Nat.repr n
  String.mk (List.replicate (4 - s.length) '0') ++ s

/-- One resumption of the generator `generate_recovery_codes`: from the
internal counter it either yields the next code together with the next
counter, or is exhausted.  This is the on-demand (lazy) view. -/
def gen_step (code : Nat) : Option (String × Nat) :=
  if code < 10000 then some (pad4 code, code + 1) else none

/-- All codes the generator yields from internal counter `code` onwards. -/
def genFrom (code : Nat) : List String :=
  if h : code < 10000 then pad4 code :: genFrom (code + 1) else []
termination_by 10000 - code

/-- The full sequence of recovery codes yielded by
`generate_recovery_codes()`. -/
def generate_recovery_codes : List String := genFrom 0

/-- Numeric value of a decimal digit string (how a human reads "0042"). -/
def codeVal (s : String) : Nat :=
  List.foldl (fun a c => a * 10 + (c.toNat - 48)) 0 s.toList

/-! ### `send_recovery_request` -/

/-- Python dict assignment `d[k] = v`: overwrite in place when the key is
present, append otherwise. -/
def dictSet (d : List (String × String)) (k v : String) : List (String × String) :=
  if d.any (fun p => p.1 == k) then
    d.map (fun p => if p.1 == k then (k, v) else p)
  else d ++ [(k, v)]

/-- Python `needle in hay` for strings: contiguous substring test. -/
def containsSub (hay needle : String) : Bool :=
  (hay.splitOn needle).length > 1

/-- The failure marker the script looks for in the response body. -/
def invalidCodeMessage : String := "Invalid or expired recovery code!"

/-- The randomized `X-Forwarded-For` value built from four draws of
`random.randint(1, 255)`. -/
def random_ip (a b c d : Nat) : String :=
  Nat.repr a ++ "." ++ Nat.repr b ++ "." ++ Nat.repr c ++ "." ++ Nat.repr d

/-- An HTTP POST request as `requests.post` receives it. -/
structure HttpRequest where
  url : String
  headers : List (String × String)
  data : List (String × String)
  timeout : Nat
deriving Repr, DecidableEq

/-- The request a single probe issues: the copied header dict with this
invocation's random IP added, the form payload for this candidate, and
the per-request timeout. -/
def buildRequest (globalHeaders : List (String × String)) (randomIp code : String) :
    HttpRequest :=
  ⟨RESET_PASSWORD_URL,
   dictSet globalHeaders "X-Forwarded-For" randomIp,
   [("recovery_code", code), ("s", "179")],
   3⟩

/-- `send_recovery_request(recovery_code)`.  Inputs: the module-level
header dict, this invocation's random IP, the network (`none` models a
`requests.RequestException`), and the candidate code.  Output: whether
`CorrectCodeFoundException` was raised, paired with the module-level
header dict as the call leaves it. -/
def send_recovery_request (globalHeaders : List (String × String)) (randomIp : String)
    (net : HttpRequest → Option String) (code : String) :
    Bool × List (String × String) :=
  match net (buildRequest globalHeaders randomIp code) with
  | some body => (!containsSub body invalidCodeMessage, globalHeaders)
  | none => (false, globalHeaders)

/-! ### `brute_force_recovery_code`

`ThreadPoolExecutor(max_workers=100)` together with the `as_completed`
driver loop, as a small-step transition system.  The dict comprehension
submits a task for every generated candidate before any completion is
inspected, so the initial state holds the whole domain in the FIFO queue.
A worker may pick up the next queued task whenever fewer than
`max_workers` tasks are executing (`Step.start`), and a running task may
complete (`Step.finish`); a schedule is an arbitrary list of such steps.
Exiting the `with` block calls `shutdown(wait=True)`, which runs every
still-queued task, so a run of the script is a schedule after which both
the queue and the running set are empty. -/

/-- One scheduler event of the thread pool. -/
inductive Step where
  | start
  | finish (i : Nat)
deriving Repr, DecidableEq

/-- Executor state: FIFO queue of submitted-but-not-started tasks, the
tasks currently executing, and the tasks already completed in completion
order.  Tasks are identified by their submission index. -/
structure ExecState where
  queue : List Nat
  running : List Nat
  done : List Nat
deriving Repr, DecidableEq

/-- One transition of the pool with `W` workers: a free worker starts the
next queued task, or a running task completes. -/
def stepExec (W : Nat) (s : ExecState) : Step → Option ExecState
  | Step.start =>
    match s.queue with
    | [] => none
    | i :: q =>
      if s.running.length < W then some ⟨q, s.running ++ [i], s.done⟩ else none
  | Step.finish i =>
    if s.running.contains i then some ⟨s.queue, s.running.erase i, s.done ++ [i]⟩
    else none

/-- Run a schedule from a state; `none` when some step is not enabled. -/
def runTrace (W : Nat) : ExecState → List Step → Option ExecState
  | s, [] => some s
  | s, st :: rest =>
    match stepExec W s st with
    | some s2 => runTrace W s2 rest
    | none => none

/-- The state right after the dict comprehension has submitted all `N`
candidates: everything queued, nothing started, nothing completed. -/
def initExec (N : Nat) : ExecState := ⟨List.range N, [], []⟩

/-- Outcome of the whole script: either some probe raised
`CorrectCodeFoundException` (Found) or the pool drained (Exhausted). -/
inductive SearchResult where
  | found (i : Nat)
  | exhausted
deriving Repr, DecidableEq

/-- The `as_completed` driver loop: walk the futures in completion order;
the first one whose probe raised `CorrectCodeFoundException` re-raises,
which the outer handler records as the found result; if none raised the
loop falls through and the domain is exhausted. -/
def searchResult (raised : Nat → Bool) (done : List Nat) : SearchResult :=
  match done.find? raised with
  | some i => SearchResult.found i
  | none => SearchResult.exhausted

/-- All tasks a state still owes work for or has completed. -/
def pool (s : ExecState) : List Nat := s.queue ++ s.running ++ s.done

/-- Number of `Step.start` events in a schedule. -/
def countStarts : List Step → Nat
  | [] => 0
  | Step.start :: rest => countStarts rest + 1
  | Step.finish _ :: rest => countStarts rest

/-- Number of tasks started strictly after the first completion of a
probe that raised the success signal. -/
def startsAfterSuccess (raised : Nat → Bool) : List Step → Nat
  | [] => 0
  | Step.start :: rest => startsAfterSuccess raised rest
  | Step.finish i :: rest =>
    if raised i then countStarts rest else startsAfterSuccess raised rest

end Hammer

namespace MacChanger

/-- Observable effects of `mac_changer.py`, in program order. -/
inductive Effect where
  | input (prompt : String)
  | output (line : String)
  | call (argv : List String)
deriving Repr, DecidableEq

/-- The whole straight-line script, as the trace of effects it performs
for the two values read from standard input. -/
def mac_changer (interface new_mac : String) : List Effect :=
  [Effect.input "Interface >",
   Effect.input "New MAC >",
   Effect.output ("[+] Changing MAC address for " ++ interface ++ " with " ++ new_mac),
   Effect.call ["ifconfig", interface, "down"],
   Effect.call ["ifconfig", interface, "hw", "ether", new_mac],
   Effect.call ["ifconfig", interface, "up"]]

/-- The subprocess invocations of an effect trace, in order. -/
def calls (es : List Effect) : List (List String) :=
  es.filterMap (fun e => match e with | Effect.call argv => some argv | _ => none)

end MacChanger

namespace Hammer

/-! ### Decimal formatting facts -/

lemma digitChar_val {m : Nat} (h : m < 10) : (Nat.digitChar m).toNat - 48 = m := by
  interval_cases m <;> decide

lemma foldl_toDigitsCore (fuel : Nat) : ∀ n < fuel, ∀ (ds : List Char) (a : Nat),
    ∃ p, List.foldl (fun a c => a * 10 + (c.toNat - 48)) a (Nat.toDigitsCore 10 fuel n ds)
      = List.foldl (fun a c => a * 10 + (c.toNat - 48)) (a * p + n) ds := by
  induction fuel with
  | zero => intro n hn; omega
  | succ fuel ih =>
    intro n hn ds a
    by_cases h10 : n / 10 = 0
    · refine ⟨10, ?_⟩
      have hn10 : n < 10 := by omega
      simp only [Nat.toDigitsCore, h10, if_pos rfl]
      simp only [List.foldl, Nat.mod_eq_of_lt hn10]
      rw [digitChar_val hn10]
    · have hlt : n / 10 < fuel := by
        have := Nat.div_lt_self (by omega : 0 < n) (by norm_num : 1 < 10)
        omega
      obtain ⟨p, hp⟩ := ih (n / 10) hlt (Nat.digitChar (n % 10) :: ds) a
      refine ⟨p * 10, ?_⟩
      simp only [Nat.toDigitsCore, if_neg h10]
      rw [hp]
      simp only [List.foldl]
      rw [digitChar_val (Nat.mod_lt n (by norm_num))]
      congr 1
      have := Nat.div_add_mod n 10
      ring_nf
      omega

lemma codeVal_repr (n : Nat) : codeVal (Nat.repr n) = n := by
  obtain ⟨p, hp⟩ := foldl_toDigitsCore (n + 1) n (Nat.lt_succ_self n) [] 0
  simpa [codeVal, Nat.repr, Nat.toDigits, List.asString] using hp

lemma codeVal_pad4 (n : Nat) : codeVal (pad4 n) = n := by
  have hz : ∀ k a, a = 0 → List.foldl (fun a c => a * 10 + (c.toNat - 48)) a
      (List.replicate k '0') = 0 := by
    intro k
    induction k with
    | zero => intro a ha; simpa using ha
    | succ k ih => intro a ha; subst ha; simpa using ih _ rfl
  have hrepr := codeVal_repr n
  simp only [codeVal, pad4] at *
  rw [show (String.mk (List.replicate (4 - (Nat.repr n).length) '0') ++ Nat.repr n).toList
      = List.replicate (4 - (Nat.repr n).length) '0' ++ (Nat.repr n).toList from rfl]
  rw [List.foldl_append, hz _ _ rfl]
  exact hrepr

lemma genFrom_eq (n : Nat) : ∀ c, c + n = 10000 →
    genFrom c = (List.range' c n).map pad4 := by
  induction n with
  | zero =>
    intro c hc
    rw [genFrom]
    simp [show ¬ c < 10000 by omega]
  | succ n ih =>
    intro c hc
    rw [genFrom]
    rw [List.range'_succ]
    simp only [show c < 10000 by omega, dif_pos, List.map_cons]
    rw [ih (c + 1) (by omega)]

lemma generate_eq : generate_recovery_codes = (List.range 10000).map pad4 := by
  rw [generate_recovery_codes, genFrom_eq 10000 0 rfl, List.range_eq_range']

lemma pad4_inj : Function.Injective pad4 := by
  intro a b h
  have hv := codeVal_pad4 a
  rw [h, codeVal_pad4] at hv
  omega

lemma pad4_length {n : Nat} (h : n < 10000) : (pad4 n).length = 4 := by
  have hle : (Nat.repr n).length ≤ 4 := Nat.repr_length n 4 (by norm_num) (by omega)
  simp only [pad4, String.length_append, String.length_mk, List.length_replicate]
  omega

/-! ### Executor invariants -/

lemma pool_step {W : Nat} {s s2 : ExecState} {st : Step}
    (h : stepExec W s st = some s2) : List.Perm (pool s2) (pool s) := by
  cases st with
  | start =>
    cases hq : s.queue with
    | nil => simp [stepExec, hq] at h
    | cons i q =>
      simp only [stepExec, hq] at h
      split at h
      · cases h
        simp only [pool, hq]
        have e1 : q ++ (s.running ++ [i]) ++ s.done = (q ++ s.running) ++ i :: s.done := by
          simp
        have e2 : (i :: q) ++ s.running ++ s.done = i :: ((q ++ s.running) ++ s.done) := by
          simp
        rw [e1, e2]
        exact List.perm_middle
      · cases h
  | finish i =>
    simp only [stepExec] at h
    split at h
    · cases h
      rename_i hc
      have hmem : i ∈ s.running := by simpa using hc
      simp only [pool, List.append_assoc]
      refine List.Perm.append_left s.queue ?_
      have h1 : List.Perm (s.running.erase i ++ (s.done ++ [i]))
          (i :: (s.running.erase i ++ s.done)) := by
        have e1 : s.running.erase i ++ (s.done ++ [i])
            = (s.running.erase i ++ s.done) ++ [i] := by simp
        rw [e1]
        exact List.perm_append_comm
      have h2 : List.Perm (i :: (s.running.erase i ++ s.done)) (s.running ++ s.done) := by
        have h3 := (List.perm_cons_erase hmem).append_right s.done
        simpa using h3.symm
      exact h1.trans h2
    · cases h

lemma pool_run {W : Nat} : ∀ {s s2 : ExecState} {tr : List Step},
    runTrace W s tr = some s2 → List.Perm (pool s2) (pool s) := by
  intro s s2 tr
  induction tr generalizing s with
  | nil => intro h; cases h; exact List.Perm.refl _
  | cons st rest ih =>
    intro h
    simp only [runTrace] at h
    cases hst : stepExec W s st with
    | none => rw [hst] at h; cases h
    | some s1 =>
      rw [hst] at h
      exact (ih h).trans (pool_step hst)

lemma run_bound {W : Nat} : ∀ {s s2 : ExecState} {tr : List Step},
    runTrace W s tr = some s2 → s.running.length ≤ W → s2.running.length ≤ W := by
  intro s s2 tr
  induction tr generalizing s with
  | nil => intro h hb; cases h; exact hb
  | cons st rest ih =>
    intro h hb
    simp only [runTrace] at h
    cases hst : stepExec W s st with
    | none => rw [hst] at h; cases h
    | some s1 =>
      rw [hst] at h
      refine ih h ?_
      cases st with
      | start =>
        cases hq : s.queue with
        | nil => simp [stepExec, hq] at hst
        | cons i q =>
          simp only [stepExec, hq] at hst
          split at hst
          · cases hst
            rename_i hlt
            simpa using hlt
          · cases hst
      | finish i =>
        simp only [stepExec] at hst
        split at hst
        · cases hst
          exact le_trans (List.Sublist.length_le (List.erase_sublist i s.running)) hb
        · cases hst

lemma done_perm_range {W N : Nat} {tr : List Step} {s2 : ExecState}
    (h : runTrace W (initExec N) tr = some s2)
    (hq : s2.queue = []) (hr : s2.running = []) : List.Perm s2.done (List.range N) := by
  have hperm := pool_run h
  simp only [pool, initExec, hq, hr, List.nil_append, List.append_nil] at hperm
  exact hperm

lemma find_unique {c : Nat} {raised : Nat → Bool}
    (hr : ∀ i, raised i = true ↔ i = c) :
    ∀ {l : List Nat}, c ∈ l → l.find? raised = some c := by
  intro l
  induction l with
  | nil => intro h; cases h
  | cons a rest ih =>
    intro hmem
    by_cases ha : raised a = true
    · have hac : a = c := (hr a).mp ha
      subst hac
      simp [List.find?, ha]
    · have hne : a ≠ c := by
        intro hac; exact ha ((hr a).mpr hac)
      have hrest : c ∈ rest := by
        cases hmem with
        | head => exact absurd rfl hne
        | tail _ h => exact h
      simp only [List.find?]
      rw [Bool.eq_false_iff.mpr ha]
      exact ih hrest

end Hammer

namespace Hammer

/-- Claim C4: the candidate generator yields exactly the 10000 zero-padded
4-digit decimal strings "0000" through "9999", in increasing numeric
order, each exactly once, and it produces them on demand: each resumption
of the generator yields just the next code and the advanced counter. -/
theorem C4_generator_codes :
    generate_recovery_codes = (List.range 10000).map pad4 ∧
    generate_recovery_codes.length = 10000 ∧
    pad4 0 = "0000" ∧
    pad4 9999 = "9999" ∧
    (∀ n, n < 10000 → (pad4 n).length = 4 ∧ codeVal (pad4 n) = n) ∧
    List.Chain' (fun a b => codeVal a < codeVal b) generate_recovery_codes ∧
    generate_recovery_codes.Nodup ∧
    (∀ c, genFrom c = (match gen_step c with
      | some (s, c2) => s :: genFrom c2
      | none => [])) := by
  refine ⟨generate_eq, ?_, by decide, by decide, ?_, ?_, ?_, ?_⟩
  · rw [generate_eq]; simp
  · intro n hn
    exact ⟨pad4_length hn, codeVal_pad4 n⟩
  · rw [generate_eq, List.chain'_map]
    simp only [codeVal_pad4]
    rw [show (10000 : Nat) = 9999 + 1 from rfl, List.chain'_range_succ]
    omega
  · rw [generate_eq]
    exact (List.nodup_range 10000).map pad4_inj
  · intro c
    by_cases h : c < 10000
    · rw [genFrom]
      simp [gen_step, h]
    · rw [genFrom]
      simp [gen_step, h]

/-- Witness for C4 at a concrete input. -/
theorem C4_generator_codes_witness :
    (pad4 7).length = 4 ∧ codeVal (pad4 7) = 7 := by
  obtain ⟨-, -, -, -, h, -⟩ := C4_generator_codes
  exact h 7 (by norm_num)

end Hammer

namespace Hammer

/-- Claim C7: a probe raises the success signal
(`CorrectCodeFoundException`) iff the POST completes without a transport
exception and the body lacks the exact substring
"Invalid or expired recovery code!"; any completed response without that
marker counts as success, and a transport failure never does. -/
theorem C7_success_iff_no_marker :
    ∀ (gh : List (String × String)) (ip : String)
      (net : HttpRequest → Option String) (code : String),
      (send_recovery_request gh ip net code).1 = true ↔
        ∃ body, net (buildRequest gh ip code) = some body ∧
          containsSub body invalidCodeMessage = false := by
  intro gh ip net code
  simp only [send_recovery_request]
  cases hnet : net (buildRequest gh ip code) with
  | none => simp
  | some body => simp [Bool.not_eq_true']

/-- Claim C8: each probe invocation builds its own request data — a fresh
copy of the global header dict extended with this invocation's randomized
X-Forwarded-For value, and its own payload — and every invocation leaves
the module-level `REQUEST_HEADERS` unchanged. -/
theorem C8_no_shared_config_mutation :
    ∀ (ip : String) (net : HttpRequest → Option String) (code : String),
      (send_recovery_request REQUEST_HEADERS ip net code).2 = REQUEST_HEADERS ∧
      (∀ gh, (send_recovery_request gh ip net code).2 = gh) ∧
      (∀ gh, (buildRequest gh ip code).headers = dictSet gh "X-Forwarded-For" ip ∧
        (buildRequest gh ip code).data = [("recovery_code", code), ("s", "179")]) ∧
      dictSet REQUEST_HEADERS "X-Forwarded-For" ip
        = REQUEST_HEADERS ++ [("X-Forwarded-For", ip)] := by
  intro ip net code
  have hleave : ∀ gh, (send_recovery_request gh ip net code).2 = gh := by
    intro gh
    simp only [send_recovery_request]
    cases net (buildRequest gh ip code) <;> rfl
  refine ⟨hleave REQUEST_HEADERS, hleave, fun gh => ⟨rfl, rfl⟩, ?_⟩
  rw [dictSet]
  rw [if_neg (by decide)]

/-- Claim C9: the request every probe invocation issues carries the
individual per-request timeout the code sets, 3 seconds. -/
theorem C9_per_request_timeout :
    ∀ (gh : List (String × String)) (ip code : String),
      (buildRequest gh ip code).timeout = 3 := by
  intro gh ip code
  rfl

end Hammer

namespace Hammer

/-- Claim C5: a transport-level fault inside a probe is swallowed at the
probe boundary — the probe returns normally without raising the success
signal and without touching the shared dict — the driver loop continues
past such a completion, and the search itself always resolves to Found or
Exhausted (no fatal error path). -/
theorem C5_transport_faults_nonfatal :
    (∀ (gh : List (String × String)) (ip : String)
        (net : HttpRequest → Option String) (code : String),
      net (buildRequest gh ip code) = none →
        send_recovery_request gh ip net code = (false, gh)) ∧
    (∀ (raised : Nat → Bool) (i : Nat) (done : List Nat),
      raised i = false →
        searchResult raised (i :: done) = searchResult raised done) ∧
    (∀ (raised : Nat → Bool) (done : List Nat),
      searchResult raised done = SearchResult.exhausted ∨
        ∃ i, searchResult raised done = SearchResult.found i) := by
  refine ⟨?_, ?_, ?_⟩
  · intro gh ip net code hnet
    simp [send_recovery_request, hnet]
  · intro raised i done hi
    simp only [searchResult]
    rw [List.find?_cons_of_neg _ (by simp [hi])]
  · intro raised done
    cases hfind : done.find? raised with
    | none => exact Or.inl (by simp [searchResult, hfind])
    | some i => exact Or.inr ⟨i, by simp [searchResult, hfind]⟩

/-- Witness for C5 at concrete inputs: a network that always times out
yields a non-raising probe that leaves the headers alone, and the driver
walks past a non-raising completion. -/
theorem C5_transport_faults_nonfatal_witness :
    send_recovery_request REQUEST_HEADERS "10.0.0.1" (fun _ => none) "0000"
      = (false, REQUEST_HEADERS) ∧
    searchResult (fun j => j == 5) (0 :: [5]) = searchResult (fun j => j == 5) [5] := by
  exact ⟨C5_transport_faults_nonfatal.1 REQUEST_HEADERS "10.0.0.1" (fun _ => none) "0000" rfl,
    C5_transport_faults_nonfatal.2.1 (fun j => j == 5) 0 [5] (by decide)⟩

/-- Claim C6: in every state the thread pool can reach, the number of
simultaneously executing probe invocations is at most the worker bound
`W`; the bound is never exceeded. -/
theorem C6_bounded_concurrency :
    ∀ (W N : Nat) (tr : List Step) (s2 : ExecState),
      runTrace W (initExec N) tr = some s2 → s2.running.length ≤ W := by
  intro W N tr s2 h
  exact run_bound h (by simp [initExec])

/-- Witness for C6: with one worker and three submitted candidates, after
the first start exactly one probe is executing, within the bound. -/
theorem C6_bounded_concurrency_witness :
    (ExecState.mk [1, 2] [0] []).running.length ≤ 1 := by
  exact C6_bounded_concurrency 1 3 [Step.start] (ExecState.mk [1, 2] [0] []) (by decide)

end Hammer

namespace Hammer

/-- Claim C2: when the probe succeeds on exactly one candidate `c` of the
domain of size `N`, every complete run of the search — any worker bound,
any schedule — resolves to Found at `c`. -/
theorem C2_unique_success_found :
    ∀ (W N c : Nat) (raised : Nat → Bool) (tr : List Step) (s2 : ExecState),
      c < N →
      (∀ i, raised i = true ↔ i = c) →
      runTrace W (initExec N) tr = some s2 →
      s2.queue = [] → s2.running = [] →
      searchResult raised s2.done = SearchResult.found c := by
  intro W N c raised tr s2 hc hr h hq hrun
  have hperm := done_perm_range h hq hrun
  have hmem : c ∈ s2.done := hperm.mem_iff.mpr (List.mem_range.mpr hc)
  rw [searchResult, find_unique hr hmem]

/-- Witness for C2: domain of three candidates, probe succeeding only on
candidate 1, two workers, a concrete complete schedule. -/
theorem C2_unique_success_found_witness :
    searchResult (fun i => i == 1) [0, 1, 2] = SearchResult.found 1 := by
  exact C2_unique_success_found 2 3 1 (fun i => i == 1)
    [Step.start, Step.start, Step.finish 0, Step.start, Step.finish 1, Step.finish 2]
    (ExecState.mk [] [] [0, 1, 2])
    (by decide) (fun i => by simp) (by decide) rfl rfl

/-- Claim C3: when no probe ever succeeds, every complete run of the
search resolves to Exhausted, having dispatched every candidate of the
domain exactly once (the completed tasks are a permutation of the domain,
and each candidate is counted exactly once). -/
theorem C3_exhausted_all_probed_once :
    ∀ (W N : Nat) (raised : Nat → Bool) (tr : List Step) (s2 : ExecState),
      (∀ i, raised i = false) →
      runTrace W (initExec N) tr = some s2 →
      s2.queue = [] → s2.running = [] →
      searchResult raised s2.done = SearchResult.exhausted ∧
      List.Perm s2.done (List.range N) ∧
      (∀ i, i < N → s2.done.count i = 1) := by
  intro W N raised tr s2 hnone h hq hrun
  have hperm := done_perm_range h hq hrun
  have hnodup : s2.done.Nodup := hperm.symm.nodup (List.nodup_range N)
  refine ⟨?_, hperm, ?_⟩
  · have hfind : s2.done.find? raised = none :=
      List.find?_eq_none.mpr (by intro x hx; simp [hnone])
    simp [searchResult, hfind]
  · intro i hi
    have hmem : i ∈ s2.done := hperm.mem_iff.mpr (List.mem_range.mpr hi)
    exact List.count_eq_one_of_mem hnodup hmem

/-- Witness for C3: domain of two candidates, no probe succeeds, one
worker, a concrete complete schedule. -/
theorem C3_exhausted_all_probed_once_witness :
    searchResult (fun _ => false) [0, 1] = SearchResult.exhausted ∧
    List.count 0 [0, 1] = 1 := by
  have h := C3_exhausted_all_probed_once 1 2 (fun _ => false)
    [Step.start, Step.finish 0, Step.start, Step.finish 1]
    (ExecState.mk [] [] [0, 1]) (fun i => rfl) (by decide) rfl rfl
  exact ⟨h.1, h.2.2 0 (by norm_num)⟩

end Hammer

namespace Hammer

/-- Counterexample to claim C1: a valid complete one-worker execution over
three submitted candidates in which the very first candidate is the one
whose probe raises the success signal, it completes before any other
candidate has started (nothing is in flight at the moment of success),
and yet two further candidates are started after the success is recorded
— the code submits every candidate before inspecting any outcome and has
no shared found flag read-checked before dispatch, so not-yet-started
probes are not abandoned. -/
theorem C1_counterexample :
    runTrace 1 (initExec 3)
      [Step.start, Step.finish 0, Step.start, Step.finish 1, Step.start, Step.finish 2]
      = some (ExecState.mk [] [] [0, 1, 2]) ∧
    (fun i => i == 0) 0 = true ∧
    searchResult (fun i => i == 0) [0, 1, 2] = SearchResult.found 0 ∧
    startsAfterSuccess (fun i => i == 0)
      [Step.start, Step.finish 0, Step.start, Step.finish 1, Step.start, Step.finish 2]
      = 2 := by
  exact ⟨by decide, rfl, by decide, by decide⟩

/-- Claim C1 as amended: when some probe reports success, the driver
re-raises the signal and the search returns Found for the first
successful completion; but there is no shared found indicator and
not-yet-started probes are not abandoned — all candidates are submitted
before any outcome is inspected, and in every complete run every
candidate of the domain is dispatched and executed exactly once,
including candidates beyond those in flight at the moment of success. -/
theorem C1_success_returns_found_but_all_dispatched :
    ∀ (W N : Nat) (raised : Nat → Bool) (tr : List Step) (s2 : ExecState),
      runTrace W (initExec N) tr = some s2 →
      s2.queue = [] → s2.running = [] →
      List.Perm s2.done (List.range N) ∧
      (∀ c, s2.done.find? raised = some c →
        searchResult raised s2.done = SearchResult.found c ∧ raised c = true) := by
  intro W N raised tr s2 h hq hrun
  refine ⟨done_perm_range h hq hrun, ?_⟩
  intro c hfind
  exact ⟨by simp [searchResult, hfind], List.find?_some hfind⟩

/-- Witness for the amended C1 on the counterexample run: all three
candidates end up executed even though candidate 0 succeeded first, and
the result is Found at candidate 0. -/
theorem C1_success_returns_found_but_all_dispatched_witness :
    List.Perm [0, 1, 2] (List.range 3) ∧
    searchResult (fun i => i == 0) [0, 1, 2] = SearchResult.found 0 := by
  have h := C1_success_returns_found_but_all_dispatched 1 3 (fun i => i == 0)
    [Step.start, Step.finish 0, Step.start, Step.finish 1, Step.start, Step.finish 2]
    (ExecState.mk [] [] [0, 1, 2]) (by decide) rfl rfl
  exact ⟨h.1, (h.2 0 (by decide)).1⟩

end Hammer

namespace MacChanger

/-- Claim C10: for every interface and MAC input pair the script performs
exactly three external command invocations, in this order — interface
down, set hardware ether address, interface up — with no branching on the
inputs or on command results (the effect trace is the same shape for all
inputs, and contains nothing besides the two reads, the banner line, and
the three calls). -/
theorem C10_mac_changer_three_calls :
    ∀ (interface new_mac : String),
      calls (mac_changer interface new_mac) =
        [["ifconfig", interface, "down"],
         ["ifconfig", interface, "hw", "ether", new_mac],
         ["ifconfig", interface, "up"]] ∧
      mac_changer interface new_mac =
        [Effect.input "Interface >",
         Effect.input "New MAC >",
         Effect.output ("[+] Changing MAC address for " ++ interface ++ " with " ++ new_mac),
         Effect.call ["ifconfig", interface, "down"],
         Effect.call ["ifconfig", interface, "hw", "ether", new_mac],
         Effect.call ["ifconfig", interface, "up"]] := by
  intro interface new_mac
  exact ⟨rfl, rfl⟩

end MacChanger
